import Mathlib

/-!
Shallow embedding of `src/validation.rs` of nixpkgs-vet: the accumulating
validation type `Validation<A>` and its combinators `map`, `result_map`,
`and`, `and_`, `sequence`, `sequence_`, together with the `From` conversion
and the `collect_vec` iterator helper.

The `Problem` type lives in `crate::problem` and is opaque to this module;
the embedding is therefore polymorphic in the problem type `P`.  Rust's
`Vec` becomes `List`, `anyhow::Result` (fatal errors) becomes `Except E`
with an abstract error type `E`, and iterators become lists.
-/

/-- The validation result of a check.  Instead of exiting at the first
failure, this type can accumulate multiple failures (source:
`enum Validation<A> { Failure(Vec<Problem>), Success(A) }`). -/
inductive Validation (P : Type) (A : Type) where
  | Failure : List P → Validation P A
  | Success : A → Validation P A
deriving DecidableEq, Repr

/-- The result of a check (source: `pub type Result<A> = anyhow::Result<Validation<A>>`):
`Except.error` is a fatal failure, `Except.ok` a completed check. -/
abbrev VResult (E P A : Type) := Except E (Validation P A)

/-- Source: `impl<A, P: Into<Problem>> From<P> for Validation<A>`. The
`Into<Problem>` bound is embedded as an explicit conversion function. -/
def Validation.from_problem {P Q A : Type} (into : Q → P) (value : Q) : Validation P A :=
  Validation.Failure [into value]

/-- Source: `ResultIteratorExt::collect_vec`, i.e. Rust `Iterator::collect`
specialised to `Result<Vec<A>, E>`: the first `Err` short-circuits,
otherwise all `Ok` values are collected in order. -/
def collect_vec {E A : Type} : List (Except E A) → Except E (List A)
  | [] => Except.ok []
  | Except.error e :: _ => Except.error e
  | Except.ok a :: rest =>
      match collect_vec rest with
      | Except.error e => Except.error e
      | Except.ok values => Except.ok (a :: values)

namespace Validation

variable {P A B C E : Type}

/-- Source: `Validation::map`. -/
def map (self : Validation P A) (f : A → B) : Validation P B :=
  match self with
  | Failure err => Failure err
  | Success value => Success (f value)

/-- Source: `Validation::result_map`. -/
def result_map (self : Validation P A) (f : A → VResult E P B) : VResult E P B :=
  match self with
  | Failure err => Except.ok (Failure err)
  | Success value => f value

/-- Source: `Validation::and`. -/
def and (self : Validation P A) (other : Validation P B) (f : A → B → C) : Validation P C :=
  match self, other with
  | Success a, Success b => Success (f a b)
  | Failure errors_l, Failure errors_r => Failure (errors_l ++ errors_r)
  | Failure errors, Success _ => Failure errors
  | Success _, Failure errors => Failure errors

/-- Source: `Validation::and_` on `Validation<()>`: `self.and(other, |(), b| b)`. -/
def and_ (self : Validation P Unit) (other : Validation P B) : Validation P B :=
  self.and other (fun _ b => b)

/-- Whether a validation is in the `Failure` state. -/
def isFailure : Validation P A → Bool
  | Failure _ => true
  | Success _ => false

/-- Whether a validation is in the `Success` state. -/
def isSuccess : Validation P A → Bool
  | Failure _ => false
  | Success _ => true

/-- Whether a validation is a `Failure` carrying an empty problem list
(representable, but by convention never constructed). -/
def hasEmptyFailure : Validation P A → Bool
  | Failure [] => true
  | Failure (_ :: _) => false
  | Success _ => false

end Validation

namespace validation

/-- The `itertools::partition_map` call inside `sequence`: split the
collection, in order, into the `Failure` problem lists and the `Success`
values. -/
def partition_map {P A : Type} : List (Validation P A) → List (List P) × List A
  | [] => ([], [])
  | Validation.Failure err :: rest =>
      let ev := partition_map rest
      (err :: ev.1, ev.2)
  | Validation.Success value :: rest =>
      let ev := partition_map rest
      (ev.1, value :: ev.2)

/-- Source: `pub fn sequence`.  Partition the results, flatten the error
lists, and return `Success` of the values iff the flattened errors are empty. -/
def sequence {P A : Type} (check_results : List (Validation P A)) : Validation P (List A) :=
  let ev := partition_map check_results
  let flattened_errors := ev.1.flatten
  if flattened_errors.isEmpty then Validation.Success ev.2
  else Validation.Failure flattened_errors

/-- Source: `pub fn sequence_`, i.e. `sequence(validations).map(|_| ())`. -/
def sequence_ {P : Type} (validations : List (Validation P Unit)) : Validation P Unit :=
  (sequence validations).map (fun _ => ())

/-- Concatenation, in original element order, of the problem lists of the
failing elements (spec-side description of what `sequence` accumulates). -/
def failureProblems {P A : Type} : List (Validation P A) → List P
  | [] => []
  | Validation.Failure err :: rest => err ++ failureProblems rest
  | Validation.Success _ :: rest => failureProblems rest

/-- The payloads of the successful elements, in original element order. -/
def successValues {P A : Type} : List (Validation P A) → List A
  | [] => []
  | Validation.Failure _ :: rest => successValues rest
  | Validation.Success value :: rest => value :: successValues rest

theorem partition_map_join_eq {P A : Type} (l : List (Validation P A)) :
    (partition_map l).1.flatten = failureProblems l := by
  induction l with
  | nil => rfl
  | cons hd tl ih =>
    cases hd <;> simp [partition_map, failureProblems, ih]

theorem partition_map_snd_eq {P A : Type} (l : List (Validation P A)) :
    (partition_map l).2 = successValues l := by
  induction l with
  | nil => rfl
  | cons hd tl ih =>
    cases hd <;> simp [partition_map, successValues, ih]

theorem sequence_eq {P A : Type} (l : List (Validation P A)) :
    sequence l =
      if (failureProblems l).isEmpty then Validation.Success (successValues l)
      else Validation.Failure (failureProblems l) := by
  simp only [sequence, partition_map_join_eq, partition_map_snd_eq]

theorem hasEmptyFailure_eq {P A : Type} (es : List P) :
    (Validation.Failure es : Validation P A).hasEmptyFailure = es.isEmpty := by
  cases es <;> rfl

theorem isFailure_map {P A B : Type} (v : Validation P A) (f : A → B) :
    (v.map f).isFailure = v.isFailure := by
  cases v <;> rfl

theorem hasEmptyFailure_map {P A B : Type} (v : Validation P A) (f : A → B) :
    (v.map f).hasEmptyFailure = v.hasEmptyFailure := by
  cases v with
  | Failure err => simp [Validation.map, hasEmptyFailure_eq]
  | Success a => rfl

theorem isSuccess_of_isFailure_false {P A : Type} (v : Validation P A)
    (h : v.isFailure = false) : v.isSuccess = true := by
  cases v with
  | Failure err => simp [Validation.isFailure] at h
  | Success a => rfl

theorem failureProblems_of_all_success {P A : Type} (l : List (Validation P A))
    (h : ∀ v ∈ l, v.isSuccess = true) : failureProblems l = [] := by
  induction l with
  | nil => rfl
  | cons hd tl ih =>
    cases hd with
    | Failure err =>
      have hmem := h _ (List.mem_cons_self _ _)
      simp [Validation.isSuccess] at hmem
    | Success a =>
      simp only [failureProblems]
      exact ih (fun v hv => h v (List.mem_cons_of_mem _ hv))

theorem failureProblems_ne_nil {P A : Type} (l : List (Validation P A))
    (h : ∀ v ∈ l, v.hasEmptyFailure = false) (hf : ∃ v ∈ l, v.isFailure = true) :
    failureProblems l ≠ [] := by
  induction l with
  | nil => simp at hf
  | cons hd tl ih =>
    cases hd with
    | Failure err =>
      cases err with
      | nil =>
        have hmem := h _ (List.mem_cons_self _ _)
        simp [Validation.hasEmptyFailure] at hmem
      | cons p ps => simp [failureProblems]
    | Success a =>
      simp only [failureProblems]
      apply ih (fun v hv => h v (List.mem_cons_of_mem _ hv))
      rcases hf with ⟨v, hv, hvf⟩
      rcases List.mem_cons.mp hv with h1 | h1
      · rw [h1] at hvf
        simp [Validation.isFailure] at hvf
      · exact ⟨v, h1, hvf⟩

theorem failureProblems_append {P A : Type} (xs ys : List (Validation P A)) :
    failureProblems (xs ++ ys) = failureProblems xs ++ failureProblems ys := by
  induction xs with
  | nil => rfl
  | cons hd tl ih => cases hd <;> simp [failureProblems, ih]

theorem successValues_append {P A : Type} (xs ys : List (Validation P A)) :
    successValues (xs ++ ys) = successValues xs ++ successValues ys := by
  induction xs with
  | nil => rfl
  | cons hd tl ih => cases hd <;> simp [successValues, ih]

theorem sequence_isFailure {P A : Type} (l : List (Validation P A))
    (h : ∀ v ∈ l, v.hasEmptyFailure = false) :
    (sequence l).isFailure = l.any Validation.isFailure := by
  rw [sequence_eq]
  by_cases hf : ∃ v ∈ l, v.isFailure = true
  · have hne := failureProblems_ne_nil l h hf
    cases hfp : failureProblems l with
    | nil => exact absurd hfp hne
    | cons p ps =>
      have hany : l.any Validation.isFailure = true := List.any_eq_true.mpr hf
      rw [hany]
      rfl
  · push_neg at hf
    have hall : ∀ v ∈ l, v.isSuccess = true := fun v hv =>
      isSuccess_of_isFailure_false v (by simpa using hf v hv)
    rw [failureProblems_of_all_success l hall]
    have hany : l.any Validation.isFailure = false := by
      rw [List.any_eq_false]
      intro v hv
      simpa using hf v hv
    rw [hany]
    rfl

theorem sequence_hasEmptyFailure {P A : Type} (l : List (Validation P A)) :
    (sequence l).hasEmptyFailure = false := by
  rw [sequence_eq]
  cases hfp : failureProblems l with
  | nil => rfl
  | cons p ps => rfl

theorem and_hasEmptyFailure_false {P A B C : Type} (va : Validation P A) (vb : Validation P B)
    (f : A → B → C) (h1 : va.hasEmptyFailure = false) (h2 : vb.hasEmptyFailure = false) :
    (va.and vb f).hasEmptyFailure = false := by
  cases va with
  | Success a =>
    cases vb with
    | Success b => rfl
    | Failure e2 => simpa [Validation.and, hasEmptyFailure_eq] using h2
  | Failure e1 =>
    cases vb with
    | Success b => simpa [Validation.and, hasEmptyFailure_eq] using h1
    | Failure e2 =>
      cases e1 with
      | nil => simp [Validation.hasEmptyFailure] at h1
      | cons p ps => rfl

/-- C1 counterexample: a collection containing a `Failure` with an empty
problem list (representable, though never built by the combinators) makes
`sequence` return `Success`, not `Failure` as the unrestricted claim demands. -/
theorem c1_counterexample :
    sequence [(Validation.Failure [] : Validation String Nat)] = Validation.Success [] ∧
    (sequence [(Validation.Failure [] : Validation String Nat)]).isFailure = false :=
  ⟨rfl, rfl⟩

/-- C1 (amended: restricted to collections in which no element is a `Failure`
with an empty problem list): `sequence` of the empty collection is
`Success []`; if every element is a `Success` the result is `Success` of the
payloads in original order; if at least one element is a `Failure` the result
is `Failure` of the concatenation, in original element order, of exactly the
failing elements' problem lists. -/
theorem c1_sequence_spec {P A : Type} (l : List (Validation P A))
    (h : ∀ v ∈ l, v.hasEmptyFailure = false) :
    sequence ([] : List (Validation P A)) = Validation.Success [] ∧
    ((∀ v ∈ l, v.isSuccess = true) → sequence l = Validation.Success (successValues l)) ∧
    ((∃ v ∈ l, v.isFailure = true) → sequence l = Validation.Failure (failureProblems l)) := by
  refine ⟨rfl, ?_, ?_⟩
  · intro hall
    rw [sequence_eq, failureProblems_of_all_success l hall]
    rfl
  · intro hf
    rw [sequence_eq]
    have hne := failureProblems_ne_nil l h hf
    cases hfp : failureProblems l with
    | nil => exact absurd hfp hne
    | cons p ps => rfl

/-- C1 witness: the spec's concrete scenario; `Success 1` contributes nothing
and the two problems appear in original order. -/
theorem c1_sequence_spec_witness :
    sequence [Validation.Success 1, (Validation.Failure ["bad-name"] : Validation String Nat),
        Validation.Failure ["bad-ext"]]
      = Validation.Failure ["bad-name", "bad-ext"] := by
  have h := (c1_sequence_spec
      [Validation.Success 1, (Validation.Failure ["bad-name"] : Validation String Nat),
        Validation.Failure ["bad-ext"]]
      (by decide)).2.2 ⟨Validation.Failure ["bad-name"], by simp, rfl⟩
  exact h

/-- C2: the truth table of `and` and `and_`: Success/Success combines the
values (the right value for `and_`), Failure/Failure concatenates the
problem lists left-then-right, and a mixed pair returns the failing side's
list unchanged; concretely `and(Success 1, Success 2, +) = Success 3`. -/
theorem c2_and_spec {P A B C : Type} :
    (∀ (a : A) (b : B) (f : A → B → C),
      (Validation.Success a : Validation P A).and (Validation.Success b) f
        = Validation.Success (f a b)) ∧
    (∀ (b : B),
      (Validation.Success () : Validation P Unit).and_ (Validation.Success b)
        = Validation.Success b) ∧
    (∀ (e1 e2 : List P) (f : A → B → C),
      (Validation.Failure e1 : Validation P A).and (Validation.Failure e2 : Validation P B) f
        = Validation.Failure (e1 ++ e2)) ∧
    (∀ (e1 e2 : List P),
      (Validation.Failure e1 : Validation P Unit).and_ (Validation.Failure e2 : Validation P B)
        = Validation.Failure (e1 ++ e2)) ∧
    (∀ (e : List P) (b : B) (f : A → B → C),
      (Validation.Failure e : Validation P A).and (Validation.Success b) f
        = Validation.Failure e) ∧
    (∀ (a : A) (e : List P) (f : A → B → C),
      (Validation.Success a : Validation P A).and (Validation.Failure e : Validation P B) f
        = Validation.Failure e) ∧
    (∀ (e : List P) (b : B),
      (Validation.Failure e : Validation P Unit).and_ (Validation.Success b)
        = Validation.Failure e) ∧
    (∀ (e : List P),
      (Validation.Success () : Validation P Unit).and_ (Validation.Failure e : Validation P B)
        = Validation.Failure e) ∧
    (Validation.Success 1 : Validation P Nat).and (Validation.Success 2) (fun a b => a + b)
      = Validation.Success 3 :=
  ⟨fun _ _ _ => rfl, fun _ => rfl, fun _ _ _ => rfl, fun _ _ => rfl,
    fun _ _ _ => rfl, fun _ _ _ => rfl, fun _ _ => rfl, fun _ => rfl, rfl⟩

/-- C3: `result_map` over `Failure es` yields `Ok (Failure es)` and its
result does not depend on the function (it is never invoked); over
`Success a` it returns `f a` verbatim, so a fatal `Err` from `f`
propagates unchanged. -/
theorem c3_result_map_spec {E P A B : Type} :
    (∀ (es : List P) (f : A → VResult E P B),
      (Validation.Failure es : Validation P A).result_map f
        = Except.ok (Validation.Failure es)) ∧
    (∀ (es : List P) (f g : A → VResult E P B),
      (Validation.Failure es : Validation P A).result_map f
        = (Validation.Failure es : Validation P A).result_map g) ∧
    (∀ (a : A) (f : A → VResult E P B),
      (Validation.Success a : Validation P A).result_map f = f a) :=
  ⟨fun _ _ => rfl, fun _ _ _ => rfl, fun _ _ => rfl⟩

/-- C4: `map` over `Success a` applies the function; `map` over `Failure es`
passes the problem list through unchanged and its result does not depend on
the function (it is never invoked). -/
theorem c4_map_spec {P A B : Type} :
    (∀ (a : A) (f : A → B),
      (Validation.Success a : Validation P A).map f = Validation.Success (f a)) ∧
    (∀ (es : List P) (f : A → B),
      (Validation.Failure es : Validation P A).map f = Validation.Failure es) ∧
    (∀ (es : List P) (f g : A → B),
      (Validation.Failure es : Validation P A).map f
        = (Validation.Failure es : Validation P A).map g) :=
  ⟨fun _ _ => rfl, fun _ _ => rfl, fun _ _ _ => rfl⟩

/-- C5: converting a single failure-describing value into a `Validation P A`
via the `From` impl yields a `Failure` holding exactly the one converted
problem, for every result type `A`. -/
theorem c5_from_spec {P Q A : Type} (into : Q → P) (p : Q) :
    (Validation.from_problem into p : Validation P A) = Validation.Failure [into p] :=
  rfl

/-- C6: `collect_vec` returns `Ok` of all the values in their original order
when every element is `Ok`, and otherwise returns the first `Err` in
sequence order, with everything after it contributing nothing. -/
theorem c6_collect_vec_spec {E A : Type} :
    (∀ (values : List A),
      collect_vec (values.map Except.ok : List (Except E A)) = Except.ok values) ∧
    (∀ (values : List A) (e : E) (rest : List (Except E A)),
      collect_vec (values.map Except.ok ++ Except.error e :: rest) = Except.error e) := by
  constructor
  · intro values
    induction values with
    | nil => rfl
    | cons a tl ih => simp [collect_vec, ih]
  · intro values e rest
    induction values with
    | nil => rfl
    | cons a tl ih => simp [collect_vec, ih]

/-- C7 counterexample: `sequence_` over a collection containing a `Failure`
with an empty problem list (representable) returns `Success`, violating the
unrestricted claim that any `Failure` constituent forces a `Failure` result. -/
theorem c7_counterexample :
    sequence_ [(Validation.Failure [] : Validation String Unit)] = Validation.Success () ∧
    (sequence_ [(Validation.Failure [] : Validation String Unit)]).isFailure = false :=
  ⟨rfl, rfl⟩

/-- C7 (amended: for `sequence` and `sequence_` the input collection is
restricted to contain no `Failure` with an empty problem list; `and`, `and_`
and `map` satisfy the discipline unconditionally): the result is `Failure`
exactly when some constituent is `Failure`, hence `Success` only when every
constituent is `Success`. -/
theorem c7_two_state {P A B C : Type} :
    (∀ (va : Validation P A) (vb : Validation P B) (f : A → B → C),
      (va.and vb f).isFailure = (va.isFailure || vb.isFailure)) ∧
    (∀ (vu : Validation P Unit) (vb : Validation P B),
      (vu.and_ vb).isFailure = (vu.isFailure || vb.isFailure)) ∧
    (∀ (va : Validation P A) (f : A → B), (va.map f).isFailure = va.isFailure) ∧
    (∀ (l : List (Validation P A)), (∀ v ∈ l, v.hasEmptyFailure = false) →
      (sequence l).isFailure = l.any Validation.isFailure) ∧
    (∀ (l : List (Validation P Unit)), (∀ v ∈ l, v.hasEmptyFailure = false) →
      (sequence_ l).isFailure = l.any Validation.isFailure) := by
  refine ⟨?_, ?_, ?_, ?_, ?_⟩
  · intro va vb f
    cases va <;> cases vb <;> rfl
  · intro vu vb
    cases vu <;> cases vb <;> rfl
  · intro va f
    exact isFailure_map va f
  · intro l h
    exact sequence_isFailure l h
  · intro l h
    show ((sequence l).map (fun _ => ())).isFailure = _
    rw [isFailure_map]
    exact sequence_isFailure l h

/-- C7 witness: a mixed concrete collection with a non-empty failure. -/
theorem c7_two_state_witness :
    (sequence [(Validation.Failure ["p1"] : Validation String Nat),
        Validation.Success 2]).isFailure
      = [(Validation.Failure ["p1"] : Validation String Nat), Validation.Success 2].any
          Validation.isFailure :=
  (@c7_two_state String Nat Unit Unit).2.2.2.1
    [Validation.Failure ["p1"], Validation.Success 2] (by decide)

/-- C8 counterexample: `and` applied to a `Failure` with an empty problem
list (representable) and a `Success` constructs a `Failure` whose problem
list is empty, violating the unrestricted claim. -/
theorem c8_counterexample :
    ((Validation.Failure ([] : List String)).and (Validation.Success (0 : Nat))
        (fun a b => a + b)).isFailure = true ∧
    (Validation.Failure ([] : List String)).and (Validation.Success (0 : Nat))
        (fun a b => a + b) = Validation.Failure [] :=
  ⟨rfl, rfl⟩

/-- C8 (amended: provided no input is a `Failure` with an empty problem list
— and, for `result_map`, the supplied function never completes with one —
no combinator constructs a `Failure` with an empty problem list; `sequence`
and `sequence_` never do so on any input at all). -/
theorem c8_no_empty_failure {E P A B C : Type} :
    (∀ (va : Validation P A) (vb : Validation P B) (f : A → B → C),
      va.hasEmptyFailure = false → vb.hasEmptyFailure = false →
      (va.and vb f).hasEmptyFailure = false) ∧
    (∀ (vu : Validation P Unit) (vb : Validation P B),
      vu.hasEmptyFailure = false → vb.hasEmptyFailure = false →
      (vu.and_ vb).hasEmptyFailure = false) ∧
    (∀ (va : Validation P A) (f : A → B),
      va.hasEmptyFailure = false → (va.map f).hasEmptyFailure = false) ∧
    (∀ (va : Validation P A) (f : A → VResult E P B) (w : Validation P B),
      va.hasEmptyFailure = false →
      (∀ (a : A) (wb : Validation P B), f a = Except.ok wb → wb.hasEmptyFailure = false) →
      va.result_map f = Except.ok w → w.hasEmptyFailure = false) ∧
    (∀ (l : List (Validation P A)), (sequence l).hasEmptyFailure = false) ∧
    (∀ (l : List (Validation P Unit)), (sequence_ l).hasEmptyFailure = false) := by
  refine ⟨?_, ?_, ?_, ?_, ?_, ?_⟩
  · exact fun va vb f h1 h2 => and_hasEmptyFailure_false va vb f h1 h2
  · exact fun vu vb h1 h2 => and_hasEmptyFailure_false vu vb (fun _ b => b) h1 h2
  · intro va f h1
    rw [hasEmptyFailure_map]
    exact h1
  · intro va f w h1 h2 h3
    cases va with
    | Failure err =>
      have hw : Validation.Failure err = w := by
        simpa [Validation.result_map] using h3
      rw [← hw, hasEmptyFailure_eq]
      rw [hasEmptyFailure_eq] at h1
      exact h1
    | Success a =>
      exact h2 a w h3
  · exact fun l => sequence_hasEmptyFailure l
  · intro l
    show ((sequence l).map (fun _ => ())).hasEmptyFailure = false
    rw [hasEmptyFailure_map]
    exact sequence_hasEmptyFailure l

/-- C8 witness: a concrete `and` of a non-empty failure and a success. -/
theorem c8_no_empty_failure_witness :
    ((Validation.Failure ["p1"] : Validation String Nat).and (Validation.Success 2)
        (fun a b => a + b)).hasEmptyFailure = false :=
  (@c8_no_empty_failure String String Nat Nat Nat).1
    (Validation.Failure ["p1"]) (Validation.Success 2) (fun a b => a + b) rfl rfl

/-- C9: `sequence_` agrees with `sequence` followed by discarding the
success payload, including the exact problem list in the `Failure` case. -/
theorem c9_sequence_discard {P : Type} (l : List (Validation P Unit)) :
    sequence_ l = (sequence l).map (fun _ => ()) :=
  rfl

/-- C10: `sequence` is a homomorphism from list concatenation to pairwise
`and` with vector concatenation as the combining function. -/
theorem c10_sequence_append {P A : Type} (xs ys : List (Validation P A)) :
    sequence (xs ++ ys) = (sequence xs).and (sequence ys) (fun u v => u ++ v) := by
  simp only [sequence_eq, failureProblems_append, successValues_append]
  cases hx : failureProblems xs with
  | nil =>
    cases hy : failureProblems ys with
    | nil => rfl
    | cons q qs => rfl
  | cons p ps =>
    cases hy : failureProblems ys with
    | nil => simp [Validation.and]
    | cons q qs => rfl

end validation
